import Mathlib

/-!
Verification of the encoder sampler driver
(`src/rham/linear/firmware/src/encoder.cpp`).

The driver keeps two file-static variables (`last_update`, an unsigned
long initialized to 0, and `last_encoder_value`, a zero-initialized
uint16_t) and exposes `encoder_init`, `encoder_tick`, `encoder_read` and
a shell command `mag`.  We embed the driver as explicit state passing:
the environment supplies the 16-bit word the SPI bus would clock back
for each physical transfer, and every hardware side effect (pin writes,
delays, SPI configuration, 16-bit transfers) is recorded as an event in
a trace, in program order.
-/

/-- GPIO pin identifiers appearing in the source.  `ENCODER_SCK`,
`ENCODER_DO` and `ENCODER_SS` are build-time constants from the
configuration header; `MOSI` is the framework's default MOSI pin. -/
inductive Pin where
  | ENCODER_SCK
  | ENCODER_DO
  | ENCODER_SS
  | MOSI
deriving DecidableEq, Repr

/-- Modelled from the spec: the configuration header `config.h`, which
fixes the GPIO value of `ENCODER_SS`, is not part of the visible
sources, and `encoder_update` writes the framework's default `SS` pin
while `encoder_init` configures `ENCODER_SS`.  The spec describes a
single chip-select line for the sensor, so the default `SS` pin is
modelled as the configured `ENCODER_SS` pin. -/
def SS : Pin := Pin.ENCODER_SS

/-- Digital output levels used by `digitalWrite`. -/
inductive PinLevel where
  | LOW
  | HIGH
deriving DecidableEq, Repr

/-- One observable hardware side effect of the driver, in program
order.  `transfer16 sent received` is one 16-bit synchronous SPI
transaction: `sent` is the word written to the bus and `received` the
word clocked back. -/
inductive Event where
  | digitalWrite (p : Pin) (lvl : PinLevel)
  | delayMicroseconds (us : Nat)
  | transfer16 (sent : Nat) (received : Nat)
  | spiBegin (sck miso mosi ss : Pin)
  | setBitOrderMSBFIRST
  | setFrequency (hz : Nat)
  | setDataModeMODE1
  | pinModeOutput (p : Pin)
deriving DecidableEq, Repr

/-- The two file-static variables of `encoder.cpp`.  `last_update`
holds milliseconds since boot (`unsigned long`); `last_encoder_value`
holds the cached decoded angle (`uint16_t`, only ever assigned 10-bit
values by the driver). -/
structure EncState where
  last_update : Nat
  last_encoder_value : Nat
deriving DecidableEq, Repr

/-- State before any driver function runs: C++ zero-initializes both
statics (`last_update = 0` explicitly, `last_encoder_value` by static
initialization). -/
def initialState : EncState := ⟨0, 0⟩

/-- `encoder_update`: assert chip select, settle 1 µs, one 16-bit
transfer of dummy zeros capturing `received`, deassert chip select,
then cache `(received >> 6) & 0x3FF`. -/
def encoder_update (received : Nat) (s : EncState) : EncState × List Event :=
  ({ s with last_encoder_value := (received >>> 6) &&& 0x3FF },
   [Event.digitalWrite SS PinLevel.LOW,
    Event.delayMicroseconds 1,
    Event.transfer16 0 received,
    Event.digitalWrite SS PinLevel.HIGH])

/-- `encoder_read`: returns the cached `last_encoder_value`; it touches
no hardware and writes no state, which the embedding records as an
unchanged state and an empty trace. -/
def encoder_read (s : EncState) : Nat × EncState × List Event :=
  (s.last_encoder_value, s, [])

/-- `encoder_init`: configure the SPI bus (pins, MSB-first order, 1 MHz,
mode 1), set the chip-select pin to output, drive `ENCODER_SCK` high,
then run one unconditional `encoder_update` with bus response
`received`. -/
def encoder_init (received : Nat) (s : EncState) : EncState × List Event :=
  let u := encoder_update received s
  (u.1,
   [Event.spiBegin Pin.ENCODER_SCK Pin.ENCODER_DO Pin.MOSI Pin.ENCODER_SS,
    Event.setBitOrderMSBFIRST,
    Event.setFrequency 1000000,
    Event.setDataModeMODE1,
    Event.pinModeOutput Pin.ENCODER_SS,
    Event.digitalWrite Pin.ENCODER_SCK PinLevel.HIGH] ++ u.2)

/-- `encoder_tick`: `t` is the value `millis()` reports during this
call (the source reads `millis()` twice in immediate succession inside
one single-threaded call; both reads are modelled as the same value).
If `t > last_update`, store `t` into `last_update` and run one
`encoder_update` with bus response `received`; otherwise do nothing. -/
def encoder_tick (t : Nat) (received : Nat) (s : EncState) : EncState × List Event :=
  if s.last_update < t then
    encoder_update received { s with last_update := t }
  else
    (s, [])

/-- The `mag` shell command: prints the cached value via
`encoder_read` as `"Value: %d\r\n"`. -/
def mag_command (s : EncState) : String × EncState × List Event :=
  let r := encoder_read s
  ("Value: " ++ toString r.1 ++ "\r\n", r.2.1, r.2.2)

/-- `encoder_read` called `n` times in a row, collecting the returned
values, the final state and the concatenated trace. -/
def encoder_readN : Nat → EncState → List Nat × EncState × List Event
  | 0, s => ([], s, [])
  | n + 1, s =>
    let r := encoder_read s
    let rest := encoder_readN n r.2.1
    (r.1 :: rest.1, rest.2.1, r.2.2 ++ rest.2.2)

/-- One scheduler-visible operation after `init`: a `tick` at clock
value `t` with bus response `received`, a `read`, or the `mag` debug
command. -/
inductive Op where
  | tick (t : Nat) (received : Nat)
  | read
  | mag
deriving DecidableEq, Repr

/-- Timestamp a call's events with the millisecond clock value at which
the call runs. -/
def timestamp (t : Nat) (es : List Event) : List (Nat × Event) :=
  es.map (fun e => (t, e))

/-- Run a sequence of operations from state `s`, collecting the final
state and the timestamped trace.  `read` and `mag` run at no particular
clock value since they emit no events. -/
def runOps : List Op → EncState → EncState × List (Nat × Event)
  | [], s => (s, [])
  | Op.tick t v :: ops, s =>
    let c := encoder_tick t v s
    let rest := runOps ops c.1
    (rest.1, timestamp t c.2 ++ rest.2)
  | Op.read :: ops, s =>
    let r := encoder_read s
    let rest := runOps ops r.2.1
    (rest.1, rest.2)
  | Op.mag :: ops, s =>
    let r := mag_command s
    let rest := runOps ops r.2.1
    (rest.1, rest.2)

/-- A full execution: one `encoder_init` (run while the clock reads
`t0`, with bus response `v0`) from the zero-initialized statics,
followed by a sequence of operations. -/
def runFromInit (t0 : Nat) (v0 : Nat) (ops : List Op) : EncState × List (Nat × Event) :=
  let i := encoder_init v0 initialState
  let rest := runOps ops i.1
  (rest.1, timestamp t0 i.2 ++ rest.2)

/-- Whether an event is a physical bus transaction. -/
def isTransfer : Event → Bool
  | Event.transfer16 _ _ => true
  | _ => false

/-- Number of physical bus transactions in an (untimed) trace. -/
def countTransfers (es : List Event) : Nat :=
  es.countP isTransfer

/-- Number of physical bus transactions in a timed trace that occur
during millisecond `m`. -/
def transfersAt (m : Nat) (tr : List (Nat × Event)) : Nat :=
  tr.countP (fun te => te.1 == m && isTransfer te.2)

/-- The level of the last `digitalWrite` to pin `p` in a trace, if
any. -/
def lastWriteTo (p : Pin) (es : List Event) : Option PinLevel :=
  (es.filterMap (fun e =>
    match e with
    | Event.digitalWrite q lvl => if q = p then some lvl else none
    | _ => none)).getLast?

lemma transfersAt_append (m : Nat) (a b : List (Nat × Event)) :
    transfersAt m (a ++ b) = transfersAt m a + transfersAt m b :=
  List.countP_append _ _ _

lemma decode_le : ∀ v : Nat, (v >>> 6) &&& 0x3FF ≤ 1023 :=
  fun _ => Nat.and_le_right

lemma countTransfers_tick (t v : Nat) (s : EncState) :
    countTransfers (encoder_tick t v s).2 = if s.last_update < t then 1 else 0 := by
  by_cases h : s.last_update < t
  · rw [if_pos h]
    simp only [encoder_tick, if_pos h]
    rfl
  · rw [if_neg h]
    simp only [encoder_tick, if_neg h]
    rfl

/-- C1: the decoded angle stored into the cache by a physical sample with
raw 16-bit transfer value `v` equals `(v >> 6) & 0x3FF`, i.e. the middle
10 bits `v / 2^6 % 2^10`; in particular `0xFFFF` decodes to 1023,
`0x0040` to 1, and `0x0000` to 0. -/
theorem decode_correct (s : EncState) (v : Nat) :
    (encoder_update v s).1.last_encoder_value = (v >>> 6) &&& 0x3FF
    ∧ (encoder_update v s).1.last_encoder_value = v / 2 ^ 6 % 2 ^ 10
    ∧ (encoder_update 0xFFFF s).1.last_encoder_value = 1023
    ∧ (encoder_update 0x0040 s).1.last_encoder_value = 1
    ∧ (encoder_update 0x0000 s).1.last_encoder_value = 0 := by
  refine ⟨rfl, ?_, rfl, rfl, rfl⟩
  show (v >>> 6) &&& 0x3FF = v / 2 ^ 6 % 2 ^ 10
  have h10 : (0x3FF : Nat) = 2 ^ 10 - 1 := rfl
  rw [h10, Nat.and_pow_two_sub_one_eq_mod, Nat.shiftRight_eq_div_pow]

/-- C2: when the clock value `t` strictly exceeds the stored
`last_update`, one `encoder_tick` performs exactly one physical
transfer, stores `t` into `last_update`, and overwrites the cached
angle with the decode of the new transfer (the statement holds for
every prior cache value, including one equal to the new decode). -/
theorem tick_progression (s : EncState) (t v : Nat) (h : s.last_update < t) :
    countTransfers (encoder_tick t v s).2 = 1
    ∧ (encoder_tick t v s).1.last_update = t
    ∧ (encoder_tick t v s).1.last_encoder_value = (v >>> 6) &&& 0x3FF := by
  simp only [encoder_tick, if_pos h]
  exact ⟨rfl, rfl, rfl⟩

/-- Witness for `tick_progression` at the zero-initialized state, clock
value 1, and bus word 0 (whose decode 0 equals the old cached value 0). -/
theorem tick_progression_witness :
    initialState.last_update < 1
    ∧ (countTransfers (encoder_tick 1 0 initialState).2 = 1
       ∧ (encoder_tick 1 0 initialState).1.last_update = 1
       ∧ (encoder_tick 1 0 initialState).1.last_encoder_value = (0 >>> 6) &&& 0x3FF) :=
  ⟨by decide, tick_progression initialState 1 0 (by decide)⟩

/-- C3 counterexample: from the reachable state obtained by `init` and
one `tick` at millisecond 5, two further `tick` calls with the clock
still reporting 5 perform zero physical transfers — not exactly one as
the claim states for every state. -/
theorem tick_same_ms_counterexample :
    countTransfers
        ((encoder_tick 5 7 (encoder_tick 5 0 (encoder_init 0 initialState).1).1).2
          ++ (encoder_tick 5 9
                (encoder_tick 5 7 (encoder_tick 5 0 (encoder_init 0 initialState).1).1).1).2) = 0
    ∧ countTransfers
        ((encoder_tick 5 7 (encoder_tick 5 0 (encoder_init 0 initialState).1).1).2
          ++ (encoder_tick 5 9
                (encoder_tick 5 7 (encoder_tick 5 0 (encoder_init 0 initialState).1).1).1).2) ≠ 1 := by
  decide

/-- C3 amended: two `tick` calls at the same clock value `t` perform at
most one physical transfer in total — exactly one when `t` strictly
exceeds the stored `last_update`, zero otherwise — and the second call
is always a no-op: it leaves the state unchanged and emits no events. -/
theorem tick_same_ms_rate_limit (s : EncState) (t v₁ v₂ : Nat) :
    countTransfers ((encoder_tick t v₁ s).2
        ++ (encoder_tick t v₂ (encoder_tick t v₁ s).1).2) ≤ 1
    ∧ (encoder_tick t v₂ (encoder_tick t v₁ s).1).1 = (encoder_tick t v₁ s).1
    ∧ (encoder_tick t v₂ (encoder_tick t v₁ s).1).2 = []
    ∧ (s.last_update < t →
        countTransfers ((encoder_tick t v₁ s).2
          ++ (encoder_tick t v₂ (encoder_tick t v₁ s).1).2) = 1)
    ∧ (¬ s.last_update < t →
        countTransfers ((encoder_tick t v₁ s).2
          ++ (encoder_tick t v₂ (encoder_tick t v₁ s).1).2) = 0) := by
  have hsecond : encoder_tick t v₂ (encoder_tick t v₁ s).1 = ((encoder_tick t v₁ s).1, []) := by
    by_cases h : s.last_update < t
    · simp [encoder_tick, if_pos h, encoder_update]
    · simp [encoder_tick, if_neg h]
  simp only [hsecond, List.append_nil]
  refine ⟨?_, trivial, trivial, fun hc => ?_, fun hc => ?_⟩
  · rw [countTransfers_tick]
    split_ifs <;> decide
  · rw [countTransfers_tick, if_pos hc]
  · rw [countTransfers_tick, if_neg hc]

/-- Witness for `tick_same_ms_rate_limit`: at the zero-initialized
state and clock value 1 the pair of calls performs exactly one
transfer, and at the state with `last_update = 5` and clock value 5
the pair performs zero transfers. -/
theorem tick_same_ms_rate_limit_witness :
    (initialState.last_update < 1
     ∧ countTransfers ((encoder_tick 1 3 initialState).2
         ++ (encoder_tick 1 4 (encoder_tick 1 3 initialState).1).2) = 1)
    ∧ (¬ (⟨5, 0⟩ : EncState).last_update < 5
       ∧ countTransfers ((encoder_tick 5 3 (⟨5, 0⟩ : EncState)).2
           ++ (encoder_tick 5 4 (encoder_tick 5 3 (⟨5, 0⟩ : EncState)).1).2) = 0) :=
  ⟨⟨by decide, (tick_same_ms_rate_limit initialState 1 3 4).2.2.2.1 (by decide)⟩,
   ⟨by decide, (tick_same_ms_rate_limit ⟨5, 0⟩ 5 3 4).2.2.2.2 (by decide)⟩⟩

/-- C4: any number of consecutive `encoder_read` calls return the
cached `last_encoder_value` every time, leave the state unchanged, and
emit no events (in particular no bus transaction). -/
theorem read_idempotent_no_io (n : Nat) (s : EncState) :
    encoder_readN n s = (List.replicate n s.last_encoder_value, s, []) := by
  induction n with
  | zero => rfl
  | succ n ih => simp [encoder_readN, encoder_read, ih, List.replicate_succ]

/-- C5: `encoder_init` performs exactly one physical transfer, and
immediately afterwards `encoder_read` returns the decode of the word
that transfer captured; concretely, init with bus word `0x8000` makes
`read` return 512, and a subsequent tick at clock value 1 with bus word
`0xFFC0` makes `read` return 1023. -/
theorem init_populates_cache (s : EncState) (v : Nat) :
    countTransfers (encoder_init v s).2 = 1
    ∧ (encoder_read (encoder_init v s).1).1 = (v >>> 6) &&& 0x3FF
    ∧ (encoder_read (encoder_init 0x8000 initialState).1).1 = 512
    ∧ (encoder_read
        (encoder_tick 1 0xFFC0 (encoder_init 0x8000 initialState).1).1).1 = 1023 := by
  exact ⟨rfl, rfl, by decide, by decide⟩

/-- C8: `encoder_init` configures the chip-select pin `ENCODER_SS` as
an output, and the last level driven onto that pin before `init`
returns is HIGH (deasserted idle). -/
theorem init_chip_select (s : EncState) (v : Nat) :
    Event.pinModeOutput Pin.ENCODER_SS ∈ (encoder_init v s).2
    ∧ lastWriteTo Pin.ENCODER_SS (encoder_init v s).2 = some PinLevel.HIGH := by
  refine ⟨?_, rfl⟩
  simp [encoder_init, encoder_update]

/-- C9: every physical sample emits, in order: drive the chip-select
pin `ENCODER_SS` (the pin `init` configures as an output) LOW, delay
1 µs, one 16-bit transfer sending the all-zero dummy word while
capturing the word clocked back, and drive the same pin HIGH. -/
theorem update_bus_protocol (s : EncState) (v : Nat) (s' : EncState) (v' : Nat) :
    (encoder_update v s).2 =
      [Event.digitalWrite Pin.ENCODER_SS PinLevel.LOW,
       Event.delayMicroseconds 1,
       Event.transfer16 0 v,
       Event.digitalWrite Pin.ENCODER_SS PinLevel.HIGH]
    ∧ Event.pinModeOutput Pin.ENCODER_SS ∈ (encoder_init v' s').2 := by
  refine ⟨rfl, ?_⟩
  simp [encoder_init, encoder_update]

/-- C10: before `encoder_init` ever runs, the cached-angle static is
zero-initialized, so `encoder_read` returns 0 with no state change and
no events, and the `mag` debug command prints `Value: 0`. -/
theorem read_before_init_zero :
    initialState.last_encoder_value = 0
    ∧ encoder_read initialState = (0, initialState, [])
    ∧ (mag_command initialState).1 = "Value: 0\r\n" :=
  ⟨rfl, rfl, rfl⟩

lemma transfersAt_timestamp_update (m t v : Nat) (s : EncState) :
    transfersAt m (timestamp t (encoder_update v s).2) = if t = m then 1 else 0 := by
  by_cases h : t = m <;>
    simp [transfersAt, timestamp, encoder_update, isTransfer, h]

lemma transfersAt_timestamp_init (m t v : Nat) (s : EncState) :
    transfersAt m (timestamp t (encoder_init v s).2) = if t = m then 1 else 0 := by
  by_cases h : t = m <;>
    simp [transfersAt, timestamp, encoder_init, encoder_update, isTransfer, h]

lemma runOps_transfersAt_le (ops : List Op) (m : Nat) :
    ∀ s : EncState, transfersAt m (runOps ops s).2 ≤ if s.last_update < m then 1 else 0 := by
  induction ops with
  | nil =>
    intro s
    simp [runOps, transfersAt]
  | cons op ops ih =>
    intro s
    cases op with
    | read => simpa [runOps, encoder_read] using ih s
    | mag => simpa [runOps, mag_command, encoder_read] using ih s
    | tick t v =>
      by_cases h : s.last_update < t
      · have hfst : transfersAt m (timestamp t (encoder_tick t v s).2) = if t = m then 1 else 0 := by
          simp only [encoder_tick, if_pos h]
          exact transfersAt_timestamp_update m t v _
        have hlu : (encoder_tick t v s).1.last_update = t := by
          simp [encoder_tick, if_pos h, encoder_update]
        have hrest := ih (encoder_tick t v s).1
        rw [hlu] at hrest
        simp only [runOps]
        rw [transfersAt_append, hfst]
        split_ifs at * <;> omega
      · have hnop : encoder_tick t v s = (s, []) := by
          simp [encoder_tick, if_neg h]
        simp only [runOps, hnop]
        simpa [timestamp] using ih s

lemma runOps_cache_source (ops : List Op) :
    ∀ s : EncState,
      (runOps ops s).1.last_encoder_value = s.last_encoder_value
      ∨ ∃ t w, (t, Event.transfer16 0 w) ∈ (runOps ops s).2
          ∧ (runOps ops s).1.last_encoder_value = (w >>> 6) &&& 0x3FF := by
  induction ops with
  | nil =>
    intro s
    left
    rfl
  | cons op ops ih =>
    intro s
    cases op with
    | read => simpa [runOps, encoder_read] using ih s
    | mag => simpa [runOps, mag_command, encoder_read] using ih s
    | tick t v =>
      by_cases h : s.last_update < t
      · have hmem : (t, Event.transfer16 0 v) ∈ timestamp t (encoder_tick t v s).2 := by
          simp [encoder_tick, if_pos h, encoder_update, timestamp]
        have hangle : (encoder_tick t v s).1.last_encoder_value = (v >>> 6) &&& 0x3FF := by
          simp [encoder_tick, if_pos h, encoder_update]
        rcases ih (encoder_tick t v s).1 with h1 | ⟨t', w, hm, he⟩
        · right
          refine ⟨t, v, ?_, ?_⟩
          · simp only [runOps]
            exact List.mem_append_left _ hmem
          · simp only [runOps]
            rw [h1, hangle]
        · right
          refine ⟨t', w, ?_, ?_⟩
          · simp only [runOps]
            exact List.mem_append_right _ hm
          · simp only [runOps]
            exact he
      · have hnop : encoder_tick t v s = (s, []) := by
          simp [encoder_tick, if_neg h]
        simp only [runOps, hnop]
        simpa [timestamp] using ih s

/-- C6: in every execution of `init` followed by any sequence of
`tick`, `read` and `mag` operations, the cached angle is a 10-bit
value (at most 1023) and equals the decode of the word captured by
some physical transfer present in the execution's trace. -/
theorem cache_invariant (t0 v0 : Nat) (ops : List Op) :
    (runFromInit t0 v0 ops).1.last_encoder_value ≤ 1023
    ∧ ∃ t w, (t, Event.transfer16 0 w) ∈ (runFromInit t0 v0 ops).2
        ∧ (runFromInit t0 v0 ops).1.last_encoder_value = (w >>> 6) &&& 0x3FF := by
  have hex : ∃ t w, (t, Event.transfer16 0 w) ∈ (runFromInit t0 v0 ops).2
      ∧ (runFromInit t0 v0 ops).1.last_encoder_value = (w >>> 6) &&& 0x3FF := by
    have hinit_mem : (t0, Event.transfer16 0 v0) ∈ timestamp t0 (encoder_init v0 initialState).2 := by
      simp [encoder_init, encoder_update, timestamp]
    have hinit_angle :
        (encoder_init v0 initialState).1.last_encoder_value = (v0 >>> 6) &&& 0x3FF := rfl
    rcases runOps_cache_source ops (encoder_init v0 initialState).1 with h1 | ⟨t', w, hm, he⟩
    · refine ⟨t0, v0, ?_, ?_⟩
      · simp only [runFromInit]
        exact List.mem_append_left _ hinit_mem
      · simp only [runFromInit]
        rw [h1, hinit_angle]
    · refine ⟨t', w, ?_, ?_⟩
      · simp only [runFromInit]
        exact List.mem_append_right _ hm
      · simp only [runFromInit]
        exact he
  refine ⟨?_, hex⟩
  rcases hex with ⟨t, w, _, he⟩
  rw [he]
  exact decode_le w

/-- C7 counterexample: when `init` runs while the clock reads 1 and a
`tick` follows in the same millisecond, two physical transfers occur
during millisecond 1 — the claim's bound of at most one per
millisecond, counting the transfer inside `init`, fails. -/
theorem rate_limit_counterexample :
    transfersAt 1 (runFromInit 1 0 [Op.tick 1 0]).2 = 2
    ∧ ¬ transfersAt 1 (runFromInit 1 0 [Op.tick 1 0]).2 ≤ 1 := by
  decide

/-- C7 amended: in every execution, the `tick`-initiated transfers
alone number at most one per millisecond (from any starting state),
and when `init` runs while the clock reads 0 — the epoch that
`last_update` is initialized to — the bound of one transfer per
millisecond also holds for the whole trace, `init`'s transfer
included. -/
theorem rate_limit_per_ms (s : EncState) (ops : List Op) (m v0 : Nat) :
    transfersAt m (runOps ops s).2 ≤ 1
    ∧ transfersAt m (runFromInit 0 v0 ops).2 ≤ 1 := by
  constructor
  · have h := runOps_transfersAt_le ops m s
    split_ifs at h <;> omega
  · simp only [runFromInit]
    rw [transfersAt_append, transfersAt_timestamp_init]
    have h2 := runOps_transfersAt_le ops m (encoder_init v0 initialState).1
    have hlu : (encoder_init v0 initialState).1.last_update = 0 := rfl
    rw [hlu] at h2
    split_ifs at * <;> omega
